import Mathlib

/-!
Shallow embedding of the Voidbox GUI installer (`src/gui/installer.rs`).

The worker function `perform_installation` is embedded as a pure function over
an `Env` record that fixes the outcome of each external collaborator call
(`paths::ensure_dirs`, `install_self`, `paths::install_path().exists()`,
`parse_manifest`, `paths::manifest_path`, `std::fs::write`,
`cli::install_app_from_manifest`).  The embedding records, in order, the status
messages sent on the channel, the collaborator calls performed, and the file
writes that succeeded, mirroring the Rust control flow statement by statement.

The coordinator (`InstallerApp::update`) is embedded as a per-tick step
relation: drain a batch of delivered messages (a FIFO continuation of the
worker's emission sequence), then apply an optional user action.
-/

set_option maxHeartbeats 1000000

namespace Voidbox

/-- `InstallType` from the source: a self-install request, or an app-install
request carrying a slot name, display name and raw manifest text. -/
inductive InstallType where
  | SelfInstall : InstallType
  | AppInstall (name display_name manifest_content : String) : InstallType
deriving DecidableEq

/-- Opaque parsed manifest value returned by the `parse_manifest` collaborator. -/
structure Manifest where
  raw : String
deriving DecidableEq

/-- `InstallStatus` from the source: the channel message variants.  The `f32`
progress fraction is embedded as a rational. -/
inductive InstallStatus where
  | Progress : ℚ → String → InstallStatus
  | Success : String → InstallStatus
  | Error : String → InstallStatus
deriving DecidableEq

/-- `InstallerState` from the source: the coordinator display states. -/
inductive InstallerState where
  | Confirmation : InstallerState
  | Installing : ℚ → String → InstallerState
  | Done : String → InstallerState
  | Error : String → InstallerState
deriving DecidableEq

/-- One collaborator invocation performed by the worker, with its arguments. -/
inductive Call where
  | ensureDirs : Call
  | installSelf : Call
  | checkRuntime : Call
  | parseManifest : String → Call
  | fsWrite : String → String → Call
  | installApp : Manifest → Bool → Call
deriving DecidableEq

/-- Collaborator environment: the outcome each external call would produce.
`ensureDirs` is indexed by call number because the app flow may call it twice. -/
structure Env where
  version : String
  ensureDirs : Nat → Except String Unit
  installSelf : Except String Unit
  installPathExists : Bool
  parseManifest : String → Except String Manifest
  manifestPath : String → String
  fsWrite : String → String → Except String Unit
  installAppFromManifest : Manifest → Bool → Except String Unit

/-- Trace of one `perform_installation` execution: messages sent on the
channel (in order), collaborator calls performed (in order), file writes that
succeeded, and the `Result` value returned to the spawning closure. -/
structure RunTrace where
  sent : List InstallStatus
  calls : List Call
  fs : List (String × String)
  result : Except String String

/-- The `Ok` message of the self-install flow (source line: `format!("Voidbox
v{} has been installed successfully!...", crate::VERSION)`). -/
def selfSuccessMessage (env : Env) : String :=
  "Voidbox v" ++ env.version ++
    " has been installed successfully!\n\nYou can now use \x27voidbox\x27 from your terminal."

/-- Last step of the app flow: `cli::install_app_from_manifest(&manifest,
false)?` then `Progress(1.0, "Done!")` and the `Ok` value.  `msgs0`/`calls0`
carry the trace accumulated so far; the manifest file write has already
succeeded, so `(path, manifest_content)` is in the file state either way. -/
def appFinish (env : Env) (display_name manifest_content path : String)
    (manifest : Manifest) (msgs0 : List InstallStatus) (calls0 : List Call) :
    RunTrace :=
  match env.installAppFromManifest manifest false with
  | .error e =>
      ⟨msgs0, calls0 ++ [Call.installApp manifest false],
       [(path, manifest_content)], .error e⟩
  | .ok _ =>
      ⟨msgs0 ++ [InstallStatus.Progress 1.0 "Done!"],
       calls0 ++ [Call.installApp manifest false],
       [(path, manifest_content)],
       .ok (display_name ++ " has been installed successfully!")⟩

/-- `std::fs::write(&manifest_path, manifest_content)?`, then
`Progress(0.5, "Downloading and extracting...")` and the install step. -/
def appWrite (env : Env) (display_name manifest_content path : String)
    (manifest : Manifest) (msgs0 : List InstallStatus) (calls0 : List Call) :
    RunTrace :=
  match env.fsWrite path manifest_content with
  | .error e =>
      ⟨msgs0, calls0 ++ [Call.fsWrite path manifest_content], [], .error e⟩
  | .ok _ =>
      appFinish env display_name manifest_content path manifest
        (msgs0 ++ [InstallStatus.Progress 0.5 "Downloading and extracting..."])
        (calls0 ++ [Call.fsWrite path manifest_content])

/-- `paths::ensure_dirs()?` (the call guarding the manifest save), then the
file write.  `idx` is the index of this `ensure_dirs` call within the run. -/
def appDirs (env : Env) (name display_name manifest_content : String)
    (manifest : Manifest) (msgs0 : List InstallStatus) (calls0 : List Call)
    (idx : Nat) : RunTrace :=
  match env.ensureDirs idx with
  | .error e => ⟨msgs0, calls0 ++ [Call.ensureDirs], [], .error e⟩
  | .ok _ =>
      appWrite env display_name manifest_content (env.manifestPath name) manifest
        msgs0 (calls0 ++ [Call.ensureDirs])

/-- App flow from the `Progress(0.3, "Parsing manifest...")` send onward:
`parse_manifest(&manifest_content)?`, then `manifest_path`, save and install.
`msgs0`/`calls0` are the trace accumulated before this point and `idx` is the
index of the next `ensure_dirs` call. -/
def appFromParse (env : Env) (name display_name manifest_content : String)
    (msgs0 : List InstallStatus) (calls0 : List Call) (idx : Nat) : RunTrace :=
  match env.parseManifest manifest_content with
  | .error e =>
      ⟨msgs0 ++ [InstallStatus.Progress 0.3 "Parsing manifest..."],
       calls0 ++ [Call.parseManifest manifest_content], [], .error e⟩
  | .ok manifest =>
      appDirs env name display_name manifest_content manifest
        (msgs0 ++ [InstallStatus.Progress 0.3 "Parsing manifest..."])
        (calls0 ++ [Call.parseManifest manifest_content]) idx

/-- Self-install flow after `Progress(0.1, ...)` and a successful
`ensure_dirs`: `Progress(0.5, "Copying binary...")`, `install_self()?`,
`Progress(1.0, "Done!")` and the `Ok` message embedding the version. -/
def selfCopy (env : Env) (msgs0 : List InstallStatus) (calls0 : List Call) :
    RunTrace :=
  match env.installSelf with
  | .error e =>
      ⟨msgs0 ++ [InstallStatus.Progress 0.5 "Copying binary..."],
       calls0 ++ [Call.installSelf], [], .error e⟩
  | .ok _ =>
      ⟨msgs0 ++ [InstallStatus.Progress 0.5 "Copying binary...",
        InstallStatus.Progress 1.0 "Done!"],
       calls0 ++ [Call.installSelf], [], .ok (selfSuccessMessage env)⟩

/-- Runtime bootstrap inside the app flow (runtime location absent):
`ensure_dirs()?` then `install_self()?`, then the shared continuation. -/
def appBootstrapSelf (env : Env) (name display_name manifest_content : String)
    (msgs0 : List InstallStatus) (calls0 : List Call) : RunTrace :=
  match env.installSelf with
  | .error e => ⟨msgs0, calls0 ++ [Call.installSelf], [], .error e⟩
  | .ok _ =>
      appFromParse env name display_name manifest_content msgs0
        (calls0 ++ [Call.installSelf]) 1

/-- First half of the runtime bootstrap: `paths::ensure_dirs()?`. -/
def appBootstrap (env : Env) (name display_name manifest_content : String)
    (msgs0 : List InstallStatus) (calls0 : List Call) : RunTrace :=
  match env.ensureDirs 0 with
  | .error e => ⟨msgs0, calls0 ++ [Call.ensureDirs], [], .error e⟩
  | .ok _ =>
      appBootstrapSelf env name display_name manifest_content msgs0
        (calls0 ++ [Call.ensureDirs])

/-- `perform_installation` from the source, statement by statement. -/
def perform_installation (env : Env) : InstallType → RunTrace
  | .SelfInstall =>
      match env.ensureDirs 0 with
      | .error e =>
          ⟨[InstallStatus.Progress 0.1 "Creating directories..."],
           [Call.ensureDirs], [], .error e⟩
      | .ok _ =>
          selfCopy env [InstallStatus.Progress 0.1 "Creating directories..."]
            [Call.ensureDirs]
  | .AppInstall name display_name manifest_content =>
      if env.installPathExists then
        appFromParse env name display_name manifest_content
          [InstallStatus.Progress 0.1
            ("Preparing to install " ++ display_name ++ "...")]
          [Call.checkRuntime] 0
      else
        appBootstrap env name display_name manifest_content
          [InstallStatus.Progress 0.1
            ("Preparing to install " ++ display_name ++ "..."),
           InstallStatus.Progress 0.2 "Installing Voidbox runtime..."]
          [Call.checkRuntime]

/-- The spawned thread closure: run `perform_installation`, then send the one
terminal message (`Success` on `Ok`, `Error` on `Err`). -/
def workerRun (env : Env) (it : InstallType) : RunTrace :=
  let r := perform_installation env it
  { r with
    sent := r.sent ++ [match r.result with
      | .ok msg => InstallStatus.Success msg
      | .error e => InstallStatus.Error e] }

/-- Whether a channel message is terminal (`Success` or `Error`). -/
def isTerminalMsg : InstallStatus → Bool
  | .Progress _ _ => false
  | .Success _ => true
  | .Error _ => true

/-- Whether a coordinator state is terminal (`Done` or `Error`). -/
def isTerminalState : InstallerState → Bool
  | .Done _ => true
  | .Error _ => true
  | _ => false

/-- The progress fractions of a message list, in emission order. -/
def fractions (l : List InstallStatus) : List ℚ :=
  l.filterMap fun m => match m with
    | .Progress p _ => some p
    | _ => none

/-- The display state a single message maps to. -/
def msgState : InstallStatus → InstallerState
  | .Progress p m => .Installing p m
  | .Success m => .Done m
  | .Error m => .Error m

/-- The coordinator's message application (the `match status` in `update`):
it inspects only the message, never the current state. -/
def applyStatus (_s : InstallerState) (m : InstallStatus) : InstallerState :=
  match m with
  | .Progress p msg => .Installing p msg
  | .Success msg => .Done msg
  | .Error msg => .Error msg

/-- The per-tick drain loop (`while let Ok(status) = self.recv.try_recv()`). -/
def drain (s : InstallerState) (msgs : List InstallStatus) : InstallerState :=
  msgs.foldl applyStatus s

/-- User actions available on the rendered views. -/
inductive UiAction where
  | clickInstall : UiAction
  | clickCancel : UiAction
  | clickClose : UiAction
deriving DecidableEq

/-- What a user action produces in the rendering code of `update`. -/
inductive UiOutcome where
  | exitProcess : Nat → UiOutcome
  | startInstall : UiOutcome
  | noop : UiOutcome
deriving DecidableEq

/-- The button handling per rendered state: Install/Cancel exist only in
`Confirmation`, Close only in `Done` and `Error`; `std::process::exit(0)` on
Cancel and on Close-from-Done, `std::process::exit(1)` on Close-from-Error. -/
def handleUi : InstallerState → UiAction → UiOutcome
  | .Confirmation, .clickInstall => .startInstall
  | .Confirmation, .clickCancel => .exitProcess 0
  | .Done _, .clickClose => .exitProcess 0
  | .Error _, .clickClose => .exitProcess 1
  | _, _ => .noop

/-- Whole-system state of one coordinator run: the display state, whether the
worker thread has been spawned, and the messages delivered so far. -/
structure SysState where
  st : InstallerState
  spawned : Bool
  delivered : List InstallStatus
deriving DecidableEq

/-- Initial state (`InstallerApp::new`): `Confirmation`, no worker spawned. -/
def initSys : SysState := ⟨.Confirmation, false, []⟩

/-- Apply an optional user action after the drain.  Only the Install click
changes the retained state (`start_installation` sets `Installing{0.0,
"Starting installation..."}` and spawns the worker); exit-producing clicks end
the process and therefore produce no successor state in this relation. -/
def uiStep (s : SysState) (a : Option UiAction) : SysState :=
  match a, s.st with
  | some .clickInstall, .Confirmation =>
      { st := .Installing 0.0 "Starting installation...", spawned := true,
        delivered := s.delivered }
  | _, _ => s

/-- `v` is an initial segment of `w`. -/
def initSeg {α : Type} (v w : List α) : Prop := ∃ t, v ++ t = w

/-- One coordinator tick against worker emission sequence `w`: a batch `d` of
newly delivered messages (empty before the worker is spawned, FIFO from `w`),
drained in order, followed by an optional user action. -/
inductive Step (w : List InstallStatus) : SysState → SysState → Prop
  | tick (s : SysState) (d : List InstallStatus) (a : Option UiAction)
      (hspawn : s.spawned = false → d = [])
      (hfifo : initSeg (s.delivered ++ d) w) :
      Step w s (uiStep ⟨drain s.st d, s.spawned, s.delivered ++ d⟩ a)

/-- States reachable from `initSys` by coordinator ticks. -/
inductive Reaches (w : List InstallStatus) : SysState → Prop
  | init : Reaches w initSys
  | step {s s' : SysState} : Reaches w s → Step w s s' → Reaches w s'

/-- Shape of a worker emission sequence: some non-terminal messages followed
by exactly one terminal message. -/
def SentShape (w : List InstallStatus) : Prop :=
  ∃ pre t, w = pre ++ [t] ∧ isTerminalMsg t = true ∧
    ∀ m ∈ pre, isTerminalMsg m = false

/-- The nominal progress sequences of the two flows (the app flow has a
variant with and without the runtime-bootstrap step). -/
def flowTargets : InstallType → List (List ℚ)
  | .SelfInstall => [[0.1, 0.5, 1.0]]
  | .AppInstall _ _ _ => [[0.1, 0.2, 0.3, 0.5, 1.0], [0.1, 0.3, 0.5, 1.0]]

/-- Coordinator run invariant. -/
def Inv (w : List InstallStatus) (s : SysState) : Prop :=
  (s.st = .Confirmation ↔ s.spawned = false) ∧
  (s.st = .Confirmation → s.delivered = []) ∧
  initSeg s.delivered w ∧
  (isTerminalState s.st = true → s.delivered = w)

/-- Concrete environment in which every collaborator succeeds and the runtime
install location already exists. -/
def envOK : Env where
  version := "1.2.3"
  ensureDirs := fun _ => .ok ()
  installSelf := .ok ()
  installPathExists := true
  parseManifest := fun t => .ok ⟨t⟩
  manifestPath := fun n => "/home/user/.local/share/voidbox/manifests/" ++ n
  fsWrite := fun _ _ => .ok ()
  installAppFromManifest := fun _ _ => .ok ()

/-- Like `envOK` but the runtime install location is absent. -/
def envNoRuntime : Env := { envOK with installPathExists := false }

/-- Like `envOK` but manifest parsing fails. -/
def envParseFail : Env :=
  { envOK with parseManifest := fun _ => .error "invalid manifest" }

/-- Like `envOK` but the manifest file write fails. -/
def envWriteFail : Env :=
  { envOK with fsWrite := fun _ _ => .error "permission denied" }

/-- Like `envOK` but the app download/extraction fails. -/
def envAppFail : Env :=
  { envOK with installAppFromManifest := fun _ _ => .error "download failed" }

section EquationLemmas

variable {env : Env} {name dn mc path e : String} {man : Manifest} {u : Unit}
variable {msgs0 : List InstallStatus} {calls0 : List Call} {idx : Nat}

lemma appFinish_err (ha : env.installAppFromManifest man false = .error e) :
    appFinish env dn mc path man msgs0 calls0 =
      ⟨msgs0, calls0 ++ [Call.installApp man false], [(path, mc)], .error e⟩ := by
  unfold appFinish; rw [ha]

lemma appFinish_ok (ha : env.installAppFromManifest man false = .ok u) :
    appFinish env dn mc path man msgs0 calls0 =
      ⟨msgs0 ++ [InstallStatus.Progress 1.0 "Done!"],
       calls0 ++ [Call.installApp man false], [(path, mc)],
       .ok (dn ++ " has been installed successfully!")⟩ := by
  unfold appFinish; rw [ha]

lemma appWrite_err (hw : env.fsWrite path mc = .error e) :
    appWrite env dn mc path man msgs0 calls0 =
      ⟨msgs0, calls0 ++ [Call.fsWrite path mc], [], .error e⟩ := by
  unfold appWrite; rw [hw]

lemma appWrite_ok (hw : env.fsWrite path mc = .ok u) :
    appWrite env dn mc path man msgs0 calls0 =
      appFinish env dn mc path man
        (msgs0 ++ [InstallStatus.Progress 0.5 "Downloading and extracting..."])
        (calls0 ++ [Call.fsWrite path mc]) := by
  unfold appWrite; rw [hw]

lemma appDirs_err (hd : env.ensureDirs idx = .error e) :
    appDirs env name dn mc man msgs0 calls0 idx =
      ⟨msgs0, calls0 ++ [Call.ensureDirs], [], .error e⟩ := by
  unfold appDirs; rw [hd]

lemma appDirs_ok (hd : env.ensureDirs idx = .ok u) :
    appDirs env name dn mc man msgs0 calls0 idx =
      appWrite env dn mc (env.manifestPath name) man msgs0
        (calls0 ++ [Call.ensureDirs]) := by
  unfold appDirs; rw [hd]

lemma appFromParse_err (hp : env.parseManifest mc = .error e) :
    appFromParse env name dn mc msgs0 calls0 idx =
      ⟨msgs0 ++ [InstallStatus.Progress 0.3 "Parsing manifest..."],
       calls0 ++ [Call.parseManifest mc], [], .error e⟩ := by
  unfold appFromParse; rw [hp]

lemma appFromParse_ok (hp : env.parseManifest mc = .ok man) :
    appFromParse env name dn mc msgs0 calls0 idx =
      appDirs env name dn mc man
        (msgs0 ++ [InstallStatus.Progress 0.3 "Parsing manifest..."])
        (calls0 ++ [Call.parseManifest mc]) idx := by
  unfold appFromParse; rw [hp]

lemma selfCopy_err (h2 : env.installSelf = .error e) :
    selfCopy env msgs0 calls0 =
      ⟨msgs0 ++ [InstallStatus.Progress 0.5 "Copying binary..."],
       calls0 ++ [Call.installSelf], [], .error e⟩ := by
  unfold selfCopy; rw [h2]

lemma selfCopy_ok (h2 : env.installSelf = .ok u) :
    selfCopy env msgs0 calls0 =
      ⟨msgs0 ++ [InstallStatus.Progress 0.5 "Copying binary...",
        InstallStatus.Progress 1.0 "Done!"],
       calls0 ++ [Call.installSelf], [], .ok (selfSuccessMessage env)⟩ := by
  unfold selfCopy; rw [h2]

lemma appBootstrapSelf_err (h2 : env.installSelf = .error e) :
    appBootstrapSelf env name dn mc msgs0 calls0 =
      ⟨msgs0, calls0 ++ [Call.installSelf], [], .error e⟩ := by
  unfold appBootstrapSelf; rw [h2]

lemma appBootstrapSelf_ok (h2 : env.installSelf = .ok u) :
    appBootstrapSelf env name dn mc msgs0 calls0 =
      appFromParse env name dn mc msgs0 (calls0 ++ [Call.installSelf]) 1 := by
  unfold appBootstrapSelf; rw [h2]

lemma appBootstrap_err (h1 : env.ensureDirs 0 = .error e) :
    appBootstrap env name dn mc msgs0 calls0 =
      ⟨msgs0, calls0 ++ [Call.ensureDirs], [], .error e⟩ := by
  unfold appBootstrap; rw [h1]

lemma appBootstrap_ok (h1 : env.ensureDirs 0 = .ok u) :
    appBootstrap env name dn mc msgs0 calls0 =
      appBootstrapSelf env name dn mc msgs0 (calls0 ++ [Call.ensureDirs]) := by
  unfold appBootstrap; rw [h1]

lemma perform_self_dirs_err (h1 : env.ensureDirs 0 = .error e) :
    perform_installation env .SelfInstall =
      ⟨[InstallStatus.Progress 0.1 "Creating directories..."],
       [Call.ensureDirs], [], .error e⟩ := by
  simp only [perform_installation]; rw [h1]

lemma perform_self_dirs_ok (h1 : env.ensureDirs 0 = .ok u) :
    perform_installation env .SelfInstall =
      selfCopy env [InstallStatus.Progress 0.1 "Creating directories..."]
        [Call.ensureDirs] := by
  simp only [perform_installation]; rw [h1]

lemma perform_app_runtime_present (hex : env.installPathExists = true) :
    perform_installation env (.AppInstall name dn mc) =
      appFromParse env name dn mc
        [InstallStatus.Progress 0.1 ("Preparing to install " ++ dn ++ "...")]
        [Call.checkRuntime] 0 := by
  simp only [perform_installation]; rw [hex]; rfl

lemma perform_app_runtime_absent (hex : env.installPathExists = false) :
    perform_installation env (.AppInstall name dn mc) =
      appBootstrap env name dn mc
        [InstallStatus.Progress 0.1 ("Preparing to install " ++ dn ++ "..."),
         InstallStatus.Progress 0.2 "Installing Voidbox runtime..."]
        [Call.checkRuntime] := by
  simp only [perform_installation]; rw [hex]; rfl

lemma workerRun_sent (env : Env) (it : InstallType) :
    (workerRun env it).sent =
      (perform_installation env it).sent ++ [match (perform_installation env it).result with
        | .ok msg => InstallStatus.Success msg
        | .error e => InstallStatus.Error e] := rfl

lemma workerRun_calls (env : Env) (it : InstallType) :
    (workerRun env it).calls = (perform_installation env it).calls := rfl

lemma workerRun_fs (env : Env) (it : InstallType) :
    (workerRun env it).fs = (perform_installation env it).fs := rfl

end EquationLemmas

section WorkerShape

lemma mem_append_progress {msgs0 extra : List InstallStatus}
    (h0 : ∀ m ∈ msgs0, isTerminalMsg m = false)
    (hx : ∀ x ∈ extra, isTerminalMsg x = false) :
    ∀ m ∈ msgs0 ++ extra, isTerminalMsg m = false := by
  intro m hm
  rcases List.mem_append.mp hm with h | h
  · exact h0 m h
  · exact hx m h

lemma appFinish_sent_progress (env : Env) (dn mc path : String) (man : Manifest)
    (msgs0 : List InstallStatus) (calls0 : List Call)
    (h0 : ∀ m ∈ msgs0, isTerminalMsg m = false) :
    ∀ m ∈ (appFinish env dn mc path man msgs0 calls0).sent,
      isTerminalMsg m = false := by
  cases ha : env.installAppFromManifest man false with
  | error e => rw [appFinish_err ha]; exact h0
  | ok u =>
      rw [appFinish_ok ha]
      refine mem_append_progress h0 ?_
      intro x hx
      simp only [List.mem_singleton] at hx
      subst hx; rfl

lemma appWrite_sent_progress (env : Env) (dn mc path : String) (man : Manifest)
    (msgs0 : List InstallStatus) (calls0 : List Call)
    (h0 : ∀ m ∈ msgs0, isTerminalMsg m = false) :
    ∀ m ∈ (appWrite env dn mc path man msgs0 calls0).sent,
      isTerminalMsg m = false := by
  cases hw : env.fsWrite path mc with
  | error e => rw [appWrite_err hw]; exact h0
  | ok u =>
      rw [appWrite_ok hw]
      refine appFinish_sent_progress env dn mc path man _ _ ?_
      refine mem_append_progress h0 ?_
      intro x hx
      simp only [List.mem_singleton] at hx
      subst hx; rfl

lemma appDirs_sent_progress (env : Env) (name dn mc : String) (man : Manifest)
    (msgs0 : List InstallStatus) (calls0 : List Call) (idx : Nat)
    (h0 : ∀ m ∈ msgs0, isTerminalMsg m = false) :
    ∀ m ∈ (appDirs env name dn mc man msgs0 calls0 idx).sent,
      isTerminalMsg m = false := by
  cases hd : env.ensureDirs idx with
  | error e => rw [appDirs_err hd]; exact h0
  | ok u =>
      rw [appDirs_ok hd]
      exact appWrite_sent_progress env dn mc (env.manifestPath name) man _ _ h0

lemma appFromParse_sent_progress (env : Env) (name dn mc : String)
    (msgs0 : List InstallStatus) (calls0 : List Call) (idx : Nat)
    (h0 : ∀ m ∈ msgs0, isTerminalMsg m = false) :
    ∀ m ∈ (appFromParse env name dn mc msgs0 calls0 idx).sent,
      isTerminalMsg m = false := by
  have h3 : ∀ m ∈ msgs0 ++ [InstallStatus.Progress 0.3 "Parsing manifest..."],
      isTerminalMsg m = false := by
    refine mem_append_progress h0 ?_
    intro x hx
    simp only [List.mem_singleton] at hx
    subst hx; rfl
  cases hp : env.parseManifest mc with
  | error e => rw [appFromParse_err hp]; exact h3
  | ok man =>
      rw [appFromParse_ok hp]
      exact appDirs_sent_progress env name dn mc man _ _ idx h3

lemma selfCopy_sent_progress (env : Env)
    (msgs0 : List InstallStatus) (calls0 : List Call)
    (h0 : ∀ m ∈ msgs0, isTerminalMsg m = false) :
    ∀ m ∈ (selfCopy env msgs0 calls0).sent, isTerminalMsg m = false := by
  cases h2 : env.installSelf with
  | error e =>
      rw [selfCopy_err h2]
      refine mem_append_progress h0 ?_
      intro x hx
      simp only [List.mem_singleton] at hx
      subst hx; rfl
  | ok u =>
      rw [selfCopy_ok h2]
      refine mem_append_progress h0 ?_
      intro x hx
      simp only [List.mem_cons, List.not_mem_nil, or_false] at hx
      rcases hx with rfl | rfl <;> rfl

lemma appBootstrapSelf_sent_progress (env : Env) (name dn mc : String)
    (msgs0 : List InstallStatus) (calls0 : List Call)
    (h0 : ∀ m ∈ msgs0, isTerminalMsg m = false) :
    ∀ m ∈ (appBootstrapSelf env name dn mc msgs0 calls0).sent,
      isTerminalMsg m = false := by
  cases h2 : env.installSelf with
  | error e => rw [appBootstrapSelf_err h2]; exact h0
  | ok u =>
      rw [appBootstrapSelf_ok h2]
      exact appFromParse_sent_progress env name dn mc _ _ 1 h0

lemma appBootstrap_sent_progress (env : Env) (name dn mc : String)
    (msgs0 : List InstallStatus) (calls0 : List Call)
    (h0 : ∀ m ∈ msgs0, isTerminalMsg m = false) :
    ∀ m ∈ (appBootstrap env name dn mc msgs0 calls0).sent,
      isTerminalMsg m = false := by
  cases h1 : env.ensureDirs 0 with
  | error e => rw [appBootstrap_err h1]; exact h0
  | ok u =>
      rw [appBootstrap_ok h1]
      exact appBootstrapSelf_sent_progress env name dn mc _ _ h0

lemma perform_sent_progress (env : Env) (it : InstallType) :
    ∀ m ∈ (perform_installation env it).sent, isTerminalMsg m = false := by
  cases it with
  | SelfInstall =>
      cases h1 : env.ensureDirs 0 with
      | error e =>
          rw [perform_self_dirs_err h1]
          intro m hm
          simp only [List.mem_singleton] at hm
          subst hm; rfl
      | ok u =>
          rw [perform_self_dirs_ok h1]
          refine selfCopy_sent_progress env _ _ ?_
          intro m hm
          simp only [List.mem_singleton] at hm
          subst hm; rfl
  | AppInstall name dn mc =>
      cases hex : env.installPathExists with
      | true =>
          rw [perform_app_runtime_present hex]
          refine appFromParse_sent_progress env name dn mc _ _ 0 ?_
          intro m hm
          simp only [List.mem_singleton] at hm
          subst hm; rfl
      | false =>
          rw [perform_app_runtime_absent hex]
          refine appBootstrap_sent_progress env name dn mc _ _ ?_
          intro m hm
          simp only [List.mem_cons, List.not_mem_nil, or_false] at hm
          rcases hm with rfl | rfl <;> rfl

lemma sentShape_workerRun (env : Env) (it : InstallType) :
    SentShape (workerRun env it).sent := by
  refine ⟨(perform_installation env it).sent, _, rfl, ?_, perform_sent_progress env it⟩
  cases (perform_installation env it).result with
  | error e => rfl
  | ok msg => rfl

end WorkerShape

section Fractions

lemma fractions_append (a b : List InstallStatus) :
    fractions (a ++ b) = fractions a ++ fractions b :=
  List.filterMap_append a b _

lemma fractions_workerRun (env : Env) (it : InstallType) :
    fractions (workerRun env it).sent =
      fractions (perform_installation env it).sent := by
  rw [workerRun_sent, fractions_append]
  cases (perform_installation env it).result with
  | error e => simp [fractions]
  | ok msg => simp [fractions]

lemma mem_of_initSeg {α : Type} {v w : List α} {x : α}
    (h : initSeg v w) (hx : x ∈ v) : x ∈ w := by
  obtain ⟨t, rfl⟩ := h
  exact List.mem_append.mpr (Or.inl hx)

lemma chain_of_initSeg {v w : List ℚ}
    (h : initSeg v w) (hw : List.Chain' (· ≤ ·) w) :
    List.Chain' (· ≤ ·) v := by
  obtain ⟨t, rfl⟩ := h
  exact hw.left_of_append

lemma initSeg_trans_append {α : Type} {v : List α} (a b c : List α)
    (h : initSeg v (a ++ b)) (hbc : initSeg b c) : initSeg v (a ++ c) := by
  obtain ⟨t, ht⟩ := h
  obtain ⟨u, hu⟩ := hbc
  exact ⟨t ++ u, by rw [← List.append_assoc, ht, List.append_assoc, hu]⟩

lemma appFinish_fr (env : Env) (dn mc path : String) (man : Manifest)
    (msgs0 : List InstallStatus) (calls0 : List Call) :
    initSeg (fractions (appFinish env dn mc path man msgs0 calls0).sent)
      (fractions msgs0 ++ [1.0]) := by
  cases ha : env.installAppFromManifest man false with
  | error e => rw [appFinish_err ha]; exact ⟨[1.0], rfl⟩
  | ok u =>
      rw [appFinish_ok ha, fractions_append]
      exact ⟨[], by simp [fractions]⟩

lemma appWrite_fr (env : Env) (dn mc path : String) (man : Manifest)
    (msgs0 : List InstallStatus) (calls0 : List Call) :
    initSeg (fractions (appWrite env dn mc path man msgs0 calls0).sent)
      (fractions msgs0 ++ [0.5, 1.0]) := by
  cases hw : env.fsWrite path mc with
  | error e => rw [appWrite_err hw]; exact ⟨[0.5, 1.0], rfl⟩
  | ok u =>
      rw [appWrite_ok hw]
      have h := appFinish_fr env dn mc path man
        (msgs0 ++ [InstallStatus.Progress 0.5 "Downloading and extracting..."])
        (calls0 ++ [Call.fsWrite path mc])
      rw [fractions_append] at h
      simpa [fractions, List.append_assoc] using h

lemma appDirs_fr (env : Env) (name dn mc : String) (man : Manifest)
    (msgs0 : List InstallStatus) (calls0 : List Call) (idx : Nat) :
    initSeg (fractions (appDirs env name dn mc man msgs0 calls0 idx).sent)
      (fractions msgs0 ++ [0.5, 1.0]) := by
  cases hd : env.ensureDirs idx with
  | error e => rw [appDirs_err hd]; exact ⟨[0.5, 1.0], rfl⟩
  | ok u =>
      rw [appDirs_ok hd]
      exact appWrite_fr env dn mc (env.manifestPath name) man msgs0 _

lemma appFromParse_fr (env : Env) (name dn mc : String)
    (msgs0 : List InstallStatus) (calls0 : List Call) (idx : Nat) :
    initSeg (fractions (appFromParse env name dn mc msgs0 calls0 idx).sent)
      (fractions msgs0 ++ [0.3, 0.5, 1.0]) := by
  cases hp : env.parseManifest mc with
  | error e =>
      rw [appFromParse_err hp, fractions_append]
      exact ⟨[0.5, 1.0], by simp [fractions]⟩
  | ok man =>
      rw [appFromParse_ok hp]
      have h := appDirs_fr env name dn mc man
        (msgs0 ++ [InstallStatus.Progress 0.3 "Parsing manifest..."])
        (calls0 ++ [Call.parseManifest mc]) idx
      rw [fractions_append] at h
      simpa [fractions, List.append_assoc] using h

lemma selfCopy_fr (env : Env) (msgs0 : List InstallStatus) (calls0 : List Call) :
    initSeg (fractions (selfCopy env msgs0 calls0).sent)
      (fractions msgs0 ++ [0.5, 1.0]) := by
  cases h2 : env.installSelf with
  | error e =>
      rw [selfCopy_err h2, fractions_append]
      exact ⟨[1.0], by simp [fractions]⟩
  | ok u =>
      rw [selfCopy_ok h2, fractions_append]
      exact ⟨[], by simp [fractions]⟩

lemma appBootstrapSelf_fr (env : Env) (name dn mc : String)
    (msgs0 : List InstallStatus) (calls0 : List Call) :
    initSeg (fractions (appBootstrapSelf env name dn mc msgs0 calls0).sent)
      (fractions msgs0 ++ [0.3, 0.5, 1.0]) := by
  cases h2 : env.installSelf with
  | error e => rw [appBootstrapSelf_err h2]; exact ⟨[0.3, 0.5, 1.0], rfl⟩
  | ok u =>
      rw [appBootstrapSelf_ok h2]
      exact appFromParse_fr env name dn mc msgs0 _ 1

lemma appBootstrap_fr (env : Env) (name dn mc : String)
    (msgs0 : List InstallStatus) (calls0 : List Call) :
    initSeg (fractions (appBootstrap env name dn mc msgs0 calls0).sent)
      (fractions msgs0 ++ [0.3, 0.5, 1.0]) := by
  cases h1 : env.ensureDirs 0 with
  | error e => rw [appBootstrap_err h1]; exact ⟨[0.3, 0.5, 1.0], rfl⟩
  | ok u =>
      rw [appBootstrap_ok h1]
      exact appBootstrapSelf_fr env name dn mc msgs0 _

lemma perform_fr (env : Env) (it : InstallType) :
    ∃ tgt ∈ flowTargets it,
      initSeg (fractions (perform_installation env it).sent) tgt := by
  cases it with
  | SelfInstall =>
      refine ⟨[0.1, 0.5, 1.0], by simp [flowTargets], ?_⟩
      cases h1 : env.ensureDirs 0 with
      | error e =>
          rw [perform_self_dirs_err h1]
          exact ⟨[0.5, 1.0], by simp [fractions]⟩
      | ok u =>
          rw [perform_self_dirs_ok h1]
          have h := selfCopy_fr env
            [InstallStatus.Progress 0.1 "Creating directories..."] [Call.ensureDirs]
          simpa [fractions] using h
  | AppInstall name dn mc =>
      cases hex : env.installPathExists with
      | true =>
          refine ⟨[0.1, 0.3, 0.5, 1.0], by simp [flowTargets], ?_⟩
          rw [perform_app_runtime_present hex]
          have h := appFromParse_fr env name dn mc
            [InstallStatus.Progress 0.1 ("Preparing to install " ++ dn ++ "...")]
            [Call.checkRuntime] 0
          simpa [fractions] using h
      | false =>
          refine ⟨[0.1, 0.2, 0.3, 0.5, 1.0], by simp [flowTargets], ?_⟩
          rw [perform_app_runtime_absent hex]
          have h := appBootstrap_fr env name dn mc
            [InstallStatus.Progress 0.1 ("Preparing to install " ++ dn ++ "..."),
             InstallStatus.Progress 0.2 "Installing Voidbox runtime..."]
            [Call.checkRuntime]
          simpa [fractions] using h

end Fractions

/-- C1: for every install request and every outcome of the collaborators, the
worker sends exactly one terminal message (`Success` or `Error`) on the
channel, and it is the last message sent for the attempt: the emission
sequence is a list of non-terminal messages followed by a single terminal
message. -/
theorem worker_terminal_unique_last (env : Env) (it : InstallType) :
    ∃ pre t, (workerRun env it).sent = pre ++ [t] ∧ isTerminalMsg t = true ∧
      ∀ m ∈ pre, isTerminalMsg m = false :=
  sentShape_workerRun env it

/-- C2: for every install request and every combination of collaborator
outcomes, the progress fractions emitted by the worker, in emission order,
lie within `[0, 1]`, are non-decreasing, and form an initial segment of one of
the flow's nominal sequences (self-install `0.1, 0.5, 1.0`; app-install
`0.1, 0.2, 0.3, 0.5, 1.0` with the bootstrap step, or `0.1, 0.3, 0.5, 1.0`
without it) — a collaborator failure only truncates the sequence. -/
theorem worker_progress_monotone_bounded (env : Env) (it : InstallType) :
    (∀ p ∈ fractions (workerRun env it).sent, 0 ≤ p ∧ p ≤ 1) ∧
    List.Chain' (· ≤ ·) (fractions (workerRun env it).sent) ∧
    ∃ tgt ∈ flowTargets it, initSeg (fractions (workerRun env it).sent) tgt := by
  obtain ⟨tgt, htgt, hseg⟩ := perform_fr env it
  rw [fractions_workerRun]
  have htb : (∀ p ∈ tgt, 0 ≤ p ∧ p ≤ 1) ∧ List.Chain' (· ≤ ·) tgt := by
    cases it with
    | SelfInstall =>
        simp only [flowTargets, List.mem_singleton] at htgt
        subst htgt
        constructor
        · intro p hp; fin_cases hp <;> norm_num
        · norm_num [List.chain'_cons]
    | AppInstall name dn mc =>
        simp only [flowTargets, List.mem_cons, List.not_mem_nil, or_false] at htgt
        rcases htgt with rfl | rfl
        · constructor
          · intro p hp; fin_cases hp <;> norm_num
          · norm_num [List.chain'_cons]
        · constructor
          · intro p hp; fin_cases hp <;> norm_num
          · norm_num [List.chain'_cons]
  refine ⟨?_, ?_, tgt, htgt, hseg⟩
  · intro p hp
    exact htb.1 p (mem_of_initSeg hseg hp)
  · exact chain_of_initSeg hseg htb.2

section AppFlowFacts

lemma appFinish_calls_split (env : Env) (dn mc path : String) (man : Manifest)
    (msgs0 : List InstallStatus) (calls0 : List Call) :
    (appFinish env dn mc path man msgs0 calls0).calls =
      calls0 ++ [Call.installApp man false] := by
  cases ha : env.installAppFromManifest man false with
  | error e => rw [appFinish_err ha]
  | ok u => rw [appFinish_ok ha]

lemma appFinish_fs_eq (env : Env) (dn mc path : String) (man : Manifest)
    (msgs0 : List InstallStatus) (calls0 : List Call) :
    (appFinish env dn mc path man msgs0 calls0).fs = [(path, mc)] := by
  cases ha : env.installAppFromManifest man false with
  | error e => rw [appFinish_err ha]
  | ok u => rw [appFinish_ok ha]

lemma appWrite_calls_ext (env : Env) (dn mc path : String) (man : Manifest)
    (msgs0 : List InstallStatus) (calls0 : List Call) :
    ∃ tail, (appWrite env dn mc path man msgs0 calls0).calls = calls0 ++ tail := by
  cases hw : env.fsWrite path mc with
  | error e => exact ⟨[Call.fsWrite path mc], by rw [appWrite_err hw]⟩
  | ok u =>
      refine ⟨[Call.fsWrite path mc, Call.installApp man false], ?_⟩
      rw [appWrite_ok hw, appFinish_calls_split]
      simp

lemma appDirs_calls_ext (env : Env) (name dn mc : String) (man : Manifest)
    (msgs0 : List InstallStatus) (calls0 : List Call) (idx : Nat) :
    ∃ tail, (appDirs env name dn mc man msgs0 calls0 idx).calls =
      calls0 ++ Call.ensureDirs :: tail := by
  cases hd : env.ensureDirs idx with
  | error e => exact ⟨[], by rw [appDirs_err hd]⟩
  | ok u =>
      obtain ⟨tail, ht⟩ := appWrite_calls_ext env dn mc (env.manifestPath name)
        man msgs0 (calls0 ++ [Call.ensureDirs])
      refine ⟨tail, ?_⟩
      rw [appDirs_ok hd, ht]
      simp

lemma appFromParse_calls_ext (env : Env) (name dn mc : String)
    (msgs0 : List InstallStatus) (calls0 : List Call) (idx : Nat) :
    ∃ tail, (appFromParse env name dn mc msgs0 calls0 idx).calls =
      calls0 ++ Call.parseManifest mc :: tail := by
  cases hp : env.parseManifest mc with
  | error e => exact ⟨[], by rw [appFromParse_err hp]⟩
  | ok man =>
      obtain ⟨tail, ht⟩ := appDirs_calls_ext env name dn mc man
        (msgs0 ++ [InstallStatus.Progress 0.3 "Parsing manifest..."])
        (calls0 ++ [Call.parseManifest mc]) idx
      refine ⟨Call.ensureDirs :: tail, ?_⟩
      rw [appFromParse_ok hp, ht]
      simp

lemma appFinish_no_installSelf (env : Env) (dn mc path : String)
    (man : Manifest) (msgs0 : List InstallStatus) (calls0 : List Call)
    (h : Call.installSelf ∈ (appFinish env dn mc path man msgs0 calls0).calls) :
    Call.installSelf ∈ calls0 := by
  rw [appFinish_calls_split] at h
  simpa using h

lemma appWrite_no_installSelf (env : Env) (dn mc path : String)
    (man : Manifest) (msgs0 : List InstallStatus) (calls0 : List Call)
    (h : Call.installSelf ∈ (appWrite env dn mc path man msgs0 calls0).calls) :
    Call.installSelf ∈ calls0 := by
  cases hw : env.fsWrite path mc with
  | error e => rw [appWrite_err hw] at h; simpa using h
  | ok u =>
      rw [appWrite_ok hw] at h
      have := appFinish_no_installSelf env dn mc path man _ _ h
      simpa using this

lemma appDirs_no_installSelf (env : Env) (name dn mc : String)
    (man : Manifest) (msgs0 : List InstallStatus) (calls0 : List Call) (idx : Nat)
    (h : Call.installSelf ∈ (appDirs env name dn mc man msgs0 calls0 idx).calls) :
    Call.installSelf ∈ calls0 := by
  cases hd : env.ensureDirs idx with
  | error e => rw [appDirs_err hd] at h; simpa using h
  | ok u =>
      rw [appDirs_ok hd] at h
      have := appWrite_no_installSelf env dn mc (env.manifestPath name) man _ _ h
      simpa using this

lemma appFromParse_no_installSelf (env : Env) (name dn mc : String)
    (msgs0 : List InstallStatus) (calls0 : List Call) (idx : Nat)
    (h : Call.installSelf ∈ (appFromParse env name dn mc msgs0 calls0 idx).calls) :
    Call.installSelf ∈ calls0 := by
  cases hp : env.parseManifest mc with
  | error e => rw [appFromParse_err hp] at h; simpa using h
  | ok man =>
      rw [appFromParse_ok hp] at h
      have := appDirs_no_installSelf env name dn mc man _ _ idx h
      simpa using this

lemma appFinish_sent_ext (env : Env) (dn mc path : String) (man : Manifest)
    (msgs0 : List InstallStatus) (calls0 : List Call) :
    ∃ tail, (appFinish env dn mc path man msgs0 calls0).sent = msgs0 ++ tail := by
  cases ha : env.installAppFromManifest man false with
  | error e => exact ⟨[], by rw [appFinish_err ha]; simp⟩
  | ok u => exact ⟨_, by rw [appFinish_ok ha]⟩

lemma appWrite_sent_ext (env : Env) (dn mc path : String) (man : Manifest)
    (msgs0 : List InstallStatus) (calls0 : List Call) :
    ∃ tail, (appWrite env dn mc path man msgs0 calls0).sent = msgs0 ++ tail := by
  cases hw : env.fsWrite path mc with
  | error e => exact ⟨[], by rw [appWrite_err hw]; simp⟩
  | ok u =>
      obtain ⟨tail, ht⟩ := appFinish_sent_ext env dn mc path man
        (msgs0 ++ [InstallStatus.Progress 0.5 "Downloading and extracting..."])
        (calls0 ++ [Call.fsWrite path mc])
      rw [appWrite_ok hw]
      refine ⟨InstallStatus.Progress 0.5 "Downloading and extracting..." :: tail, ?_⟩
      rw [ht]
      simp

lemma appDirs_sent_ext (env : Env) (name dn mc : String) (man : Manifest)
    (msgs0 : List InstallStatus) (calls0 : List Call) (idx : Nat) :
    ∃ tail, (appDirs env name dn mc man msgs0 calls0 idx).sent = msgs0 ++ tail := by
  cases hd : env.ensureDirs idx with
  | error e => exact ⟨[], by rw [appDirs_err hd]; simp⟩
  | ok u =>
      rw [appDirs_ok hd]
      exact appWrite_sent_ext env dn mc (env.manifestPath name) man msgs0 _

lemma appFromParse_sent_ext (env : Env) (name dn mc : String)
    (msgs0 : List InstallStatus) (calls0 : List Call) (idx : Nat) :
    ∃ tail, (appFromParse env name dn mc msgs0 calls0 idx).sent =
      msgs0 ++ InstallStatus.Progress 0.3 "Parsing manifest..." :: tail := by
  cases hp : env.parseManifest mc with
  | error e => exact ⟨[], by rw [appFromParse_err hp]⟩
  | ok man =>
      obtain ⟨tail, ht⟩ := appDirs_sent_ext env name dn mc man
        (msgs0 ++ [InstallStatus.Progress 0.3 "Parsing manifest..."])
        (calls0 ++ [Call.parseManifest mc]) idx
      refine ⟨tail, ?_⟩
      rw [appFromParse_ok hp, ht]
      simp

lemma appBootstrap_sent_ext (env : Env) (name dn mc : String)
    (msgs0 : List InstallStatus) (calls0 : List Call) :
    ∃ tail, (appBootstrap env name dn mc msgs0 calls0).sent = msgs0 ++ tail := by
  cases h1 : env.ensureDirs 0 with
  | error e => exact ⟨[], by rw [appBootstrap_err h1]; simp⟩
  | ok u =>
      rw [appBootstrap_ok h1]
      cases h2 : env.installSelf with
      | error e => exact ⟨[], by rw [appBootstrapSelf_err h2]; simp⟩
      | ok u2 =>
          rw [appBootstrapSelf_ok h2]
          obtain ⟨tail, ht⟩ := appFromParse_sent_ext env name dn mc msgs0 _ 1
          exact ⟨_, ht⟩

lemma mem_fractions_of_mem {p : ℚ} {msg : String} {l : List InstallStatus}
    (h : InstallStatus.Progress p msg ∈ l) : p ∈ fractions l :=
  List.mem_filterMap.mpr ⟨InstallStatus.Progress p msg, h, rfl⟩

end AppFlowFacts

/-- C3: an app-install whose manifest text fails to parse (with the preceding
runtime-bootstrap step succeeding or skipped, so that the parse step is
reached) never invokes `install_app_from_manifest`, performs no collaborator
call after the parse call, and terminates with an `Error` carrying the parse
failure as the last message sent. -/
theorem app_parse_failure_aborts (env : Env) (name dn mc e : String)
    (hp : env.parseManifest mc = .error e)
    (hboot : env.installPathExists = false →
      env.ensureDirs 0 = .ok () ∧ env.installSelf = .ok ()) :
    (∀ m f, Call.installApp m f ∉
        (workerRun env (.AppInstall name dn mc)).calls) ∧
    (∃ pre, (workerRun env (.AppInstall name dn mc)).calls =
        pre ++ [Call.parseManifest mc]) ∧
    (∃ ms, (workerRun env (.AppInstall name dn mc)).sent =
        ms ++ [InstallStatus.Error e]) := by
  cases hex : env.installPathExists with
  | true =>
      rw [workerRun_calls, workerRun_sent, perform_app_runtime_present hex,
        appFromParse_err hp]
      refine ⟨?_, ⟨[Call.checkRuntime], rfl⟩, ⟨_, rfl⟩⟩
      intro m f hm
      simp at hm
  | false =>
      obtain ⟨h1, h2⟩ := hboot hex
      rw [workerRun_calls, workerRun_sent, perform_app_runtime_absent hex,
        appBootstrap_ok h1, appBootstrapSelf_ok h2, appFromParse_err hp]
      refine ⟨?_, ⟨[Call.checkRuntime] ++ [Call.ensureDirs] ++ [Call.installSelf],
        by simp⟩, ⟨_, rfl⟩⟩
      intro m f hm
      simp at hm

/-- Witness for C3: concrete app-install whose manifest fails to parse, with
the runtime already present. -/
theorem app_parse_failure_aborts_witness :
    (∀ m f, Call.installApp m f ∉
        (workerRun envParseFail (.AppInstall "app" "App" "bad")).calls) ∧
    (∃ pre, (workerRun envParseFail (.AppInstall "app" "App" "bad")).calls =
        pre ++ [Call.parseManifest "bad"]) ∧
    (∃ ms, (workerRun envParseFail (.AppInstall "app" "App" "bad")).sent =
        ms ++ [InstallStatus.Error "invalid manifest"]) :=
  app_parse_failure_aborts envParseFail "app" "App" "bad" "invalid manifest"
    rfl (fun h => nomatch h)

/-- C4: for an app-install whose manifest parses and whose manifest write
succeeds, the manifest text is written verbatim to `manifest_path(name)`
strictly before any `install_app_from_manifest` invocation, and the write is
retained in the final file state for every outcome (including failure) of the
subsequent install step. -/
theorem manifest_persisted_before_install (env : Env) (name dn mc : String)
    (man : Manifest)
    (hp : env.parseManifest mc = .ok man)
    (hboot : env.installPathExists = false →
      env.ensureDirs 0 = .ok () ∧ env.installSelf = .ok ())
    (hd : env.ensureDirs (if env.installPathExists then 0 else 1) = .ok ())
    (hw : env.fsWrite (env.manifestPath name) mc = .ok ()) :
    (∃ l1 l2, (workerRun env (.AppInstall name dn mc)).calls =
        l1 ++ Call.fsWrite (env.manifestPath name) mc :: l2 ∧
        ∀ m f, Call.installApp m f ∉ l1) ∧
    (env.manifestPath name, mc) ∈ (workerRun env (.AppInstall name dn mc)).fs := by
  cases hex : env.installPathExists with
  | true =>
      rw [hex] at hd
      simp only [if_true] at hd
      rw [workerRun_calls, workerRun_fs, perform_app_runtime_present hex,
        appFromParse_ok hp, appDirs_ok hd, appWrite_ok hw,
        appFinish_calls_split, appFinish_fs_eq]
      refine ⟨⟨[Call.checkRuntime, Call.parseManifest mc, Call.ensureDirs],
        [Call.installApp man false], by simp, ?_⟩, by simp⟩
      intro m f hm
      simp at hm
  | false =>
      obtain ⟨h1, h2⟩ := hboot hex
      rw [hex] at hd
      simp only [Bool.false_eq_true, if_false] at hd
      rw [workerRun_calls, workerRun_fs, perform_app_runtime_absent hex,
        appBootstrap_ok h1, appBootstrapSelf_ok h2,
        appFromParse_ok hp, appDirs_ok hd, appWrite_ok hw,
        appFinish_calls_split, appFinish_fs_eq]
      refine ⟨⟨[Call.checkRuntime, Call.ensureDirs, Call.installSelf,
        Call.parseManifest mc, Call.ensureDirs],
        [Call.installApp man false], by simp, ?_⟩, by simp⟩
      intro m f hm
      simp at hm

/-- Witness for C4: concrete app-install where the write succeeds and the
subsequent install step fails, with the write retained. -/
theorem manifest_persisted_before_install_witness :
    (∃ l1 l2, (workerRun envAppFail (.AppInstall "app" "App" "text")).calls =
        l1 ++ Call.fsWrite (envAppFail.manifestPath "app") "text" :: l2 ∧
        ∀ m f, Call.installApp m f ∉ l1) ∧
    (envAppFail.manifestPath "app", "text") ∈
      (workerRun envAppFail (.AppInstall "app" "App" "text")).fs :=
  manifest_persisted_before_install envAppFail "app" "App" "text" ⟨"text"⟩
    rfl (fun h => nomatch h) rfl rfl

/-- C5: the button handling of `update` exits the process with code 0 exactly
on Cancel from `Confirmation` or Close from `Done`, with code 1 exactly on
Close from `Error`, and no other user action terminates the process. -/
theorem exit_codes_characterized (s : InstallerState) (a : UiAction) (c : Nat) :
    handleUi s a = .exitProcess c ↔
      ((c = 0 ∧ ((s = .Confirmation ∧ a = .clickCancel) ∨
          (∃ msg, s = .Done msg ∧ a = .clickClose))) ∨
       (c = 1 ∧ ∃ msg, s = .Error msg ∧ a = .clickClose)) := by
  cases s <;> cases a <;> simp [handleUi, eq_comm]

/-- C6: in the app flow the runtime-bootstrap step runs exactly when the
runtime install location is absent: a `0.2` progress message is emitted iff
the location does not exist; when it exists, `install_self` is never invoked
and the first two collaborator calls are the runtime check and the manifest
parse (no `ensure_dirs` in between); when it is absent, the calls start with
the runtime check and the bootstrap `ensure_dirs`, followed on its success by
`install_self`. -/
theorem runtime_bootstrap_iff_absent (env : Env) (name dn mc : String) :
    ((∃ msg, InstallStatus.Progress 0.2 msg ∈
        (workerRun env (.AppInstall name dn mc)).sent) ↔
      env.installPathExists = false) ∧
    (env.installPathExists = true →
      Call.installSelf ∉ (workerRun env (.AppInstall name dn mc)).calls ∧
      ∃ rest, (workerRun env (.AppInstall name dn mc)).calls =
        Call.checkRuntime :: Call.parseManifest mc :: rest) ∧
    (env.installPathExists = false →
      (∃ rest, (workerRun env (.AppInstall name dn mc)).calls =
        Call.checkRuntime :: Call.ensureDirs :: rest) ∧
      (env.ensureDirs 0 = .ok () →
        ∃ rest, (workerRun env (.AppInstall name dn mc)).calls =
          Call.checkRuntime :: Call.ensureDirs :: Call.installSelf :: rest)) := by
  cases hex : env.installPathExists with
  | true =>
      refine ⟨⟨?_, fun h => absurd h (by decide)⟩,
        fun _ => ⟨?_, ?_⟩, fun h => absurd h (by decide)⟩
      · rintro ⟨msg, hmsg⟩
        have h02 : (0.2 : ℚ) ∈ fractions (workerRun env (.AppInstall name dn mc)).sent :=
          mem_fractions_of_mem hmsg
        rw [fractions_workerRun, perform_app_runtime_present hex] at h02
        have hf := appFromParse_fr env name dn mc
          [InstallStatus.Progress 0.1 ("Preparing to install " ++ dn ++ "...")]
          [Call.checkRuntime] 0
        have h02' := mem_of_initSeg hf h02
        simp only [fractions, List.filterMap, List.mem_cons, List.mem_append,
          List.not_mem_nil] at h02'
        rcases h02' with h | h | h | h <;> norm_num at h
      · intro hmem
        rw [workerRun_calls, perform_app_runtime_present hex] at hmem
        have := appFromParse_no_installSelf env name dn mc _ _ 0 hmem
        simp at this
      · rw [workerRun_calls, perform_app_runtime_present hex]
        obtain ⟨tail, ht⟩ := appFromParse_calls_ext env name dn mc _ _ 0
        exact ⟨tail, by rw [ht]; simp⟩
  | false =>
      have hcalls :
          (∃ rest, (workerRun env (.AppInstall name dn mc)).calls =
            Call.checkRuntime :: Call.ensureDirs :: rest) ∧
          (env.ensureDirs 0 = .ok () →
            ∃ rest, (workerRun env (.AppInstall name dn mc)).calls =
              Call.checkRuntime :: Call.ensureDirs :: Call.installSelf :: rest) := by
        rw [workerRun_calls, perform_app_runtime_absent hex]
        constructor
        · cases h1 : env.ensureDirs 0 with
          | error e => exact ⟨[], by rw [appBootstrap_err h1]; rfl⟩
          | ok u =>
              rw [appBootstrap_ok h1]
              cases h2 : env.installSelf with
              | error e =>
                  exact ⟨[Call.installSelf], by rw [appBootstrapSelf_err h2]; simp⟩
              | ok u2 =>
                  rw [appBootstrapSelf_ok h2]
                  obtain ⟨tail, ht⟩ := appFromParse_calls_ext env name dn mc _ _ 1
                  exact ⟨Call.installSelf :: Call.parseManifest mc :: tail,
                    by rw [ht]; simp⟩
        · intro h1
          rw [appBootstrap_ok h1]
          cases h2 : env.installSelf with
          | error e => exact ⟨[], by rw [appBootstrapSelf_err h2]; simp⟩
          | ok u2 =>
              rw [appBootstrapSelf_ok h2]
              obtain ⟨tail, ht⟩ := appFromParse_calls_ext env name dn mc _ _ 1
              exact ⟨Call.parseManifest mc :: tail, by rw [ht]; simp⟩
      refine ⟨⟨fun _ => rfl, fun _ => ?_⟩,
        fun h => absurd h (by decide), fun _ => hcalls⟩
      rw [workerRun_sent, perform_app_runtime_absent hex]
      obtain ⟨tail, ht⟩ := appBootstrap_sent_ext env name dn mc
        [InstallStatus.Progress 0.1 ("Preparing to install " ++ dn ++ "..."),
         InstallStatus.Progress 0.2 "Installing Voidbox runtime..."]
        [Call.checkRuntime]
      refine ⟨"Installing Voidbox runtime...", ?_⟩
      rw [ht]
      simp

/-- Witness for C6's inner implications at a concrete runtime-present
environment: no `install_self` call and the calls start with the runtime
check followed directly by the parse. -/
theorem runtime_bootstrap_iff_absent_witness :
    Call.installSelf ∉ (workerRun envOK (.AppInstall "app" "App" "text")).calls ∧
    ∃ rest, (workerRun envOK (.AppInstall "app" "App" "text")).calls =
      Call.checkRuntime :: Call.parseManifest "text" :: rest :=
  (runtime_bootstrap_iff_absent envOK "app" "App" "text").2.1 rfl

/-- C7: a self-install in which both steps succeed terminates with a
`Success` whose text contains the running version identifier, and a fully
successful app-install terminates with a `Success` whose text contains the
request's display name. -/
theorem success_messages_identify (env : Env) (name dn mc : String)
    (man : Manifest) :
    (env.ensureDirs 0 = .ok () → env.installSelf = .ok () →
      ∃ pre, (workerRun env .SelfInstall).sent =
        pre ++ [InstallStatus.Success (selfSuccessMessage env)] ∧
        ∃ a b, selfSuccessMessage env = a ++ env.version ++ b) ∧
    (env.parseManifest mc = .ok man →
      (env.installPathExists = false →
        env.ensureDirs 0 = .ok () ∧ env.installSelf = .ok ()) →
      env.ensureDirs (if env.installPathExists then 0 else 1) = .ok () →
      env.fsWrite (env.manifestPath name) mc = .ok () →
      env.installAppFromManifest man false = .ok () →
      ∃ pre, (workerRun env (.AppInstall name dn mc)).sent =
        pre ++ [InstallStatus.Success (dn ++ " has been installed successfully!")] ∧
        ∃ a b, dn ++ " has been installed successfully!" = a ++ dn ++ b) := by
  constructor
  · intro h1 h2
    rw [workerRun_sent, perform_self_dirs_ok h1, selfCopy_ok h2]
    exact ⟨_, rfl, "Voidbox v",
      " has been installed successfully!\n\nYou can now use \x27voidbox\x27 from your terminal.",
      rfl⟩
  · intro hp hboot hd hw ha
    cases hex : env.installPathExists with
    | true =>
        rw [hex] at hd
        simp only [if_true] at hd
        rw [workerRun_sent, perform_app_runtime_present hex,
          appFromParse_ok hp, appDirs_ok hd, appWrite_ok hw, appFinish_ok ha]
        exact ⟨_, rfl, "", " has been installed successfully!", rfl⟩
    | false =>
        obtain ⟨h1, h2⟩ := hboot hex
        rw [hex] at hd
        simp only [Bool.false_eq_true, if_false] at hd
        rw [workerRun_sent, perform_app_runtime_absent hex,
          appBootstrap_ok h1, appBootstrapSelf_ok h2,
          appFromParse_ok hp, appDirs_ok hd, appWrite_ok hw, appFinish_ok ha]
        exact ⟨_, rfl, "", " has been installed successfully!", rfl⟩

section Coordinator

lemma applyStatus_eq_msgState (s : InstallerState) (m : InstallStatus) :
    applyStatus s m = msgState m := by
  cases m <;> rfl

lemma drain_concat (s : InstallerState) (d : List InstallStatus)
    (m : InstallStatus) : drain s (d ++ [m]) = msgState m := by
  unfold drain
  rw [List.foldl_append]
  show applyStatus (List.foldl applyStatus s d) m = msgState m
  exact applyStatus_eq_msgState _ m

lemma msgState_ne_confirmation (m : InstallStatus) :
    msgState m ≠ .Confirmation := by
  cases m <;> simp [msgState]

lemma isTerminalState_msgState (m : InstallStatus) :
    isTerminalState (msgState m) = isTerminalMsg m := by
  cases m <;> rfl

lemma uiStep_none (t : SysState) : uiStep t none = t := rfl

lemma uiStep_cancel (t : SysState) : uiStep t (some .clickCancel) = t := rfl

lemma uiStep_close (t : SysState) : uiStep t (some .clickClose) = t := rfl

lemma uiStep_install_conf (t : SysState) (h : t.st = .Confirmation) :
    uiStep t (some .clickInstall) =
      ⟨.Installing 0.0 "Starting installation...", true, t.delivered⟩ := by
  unfold uiStep
  rw [h]

lemma uiStep_not_conf (t : SysState) (a : Option UiAction)
    (h : t.st ≠ .Confirmation) : uiStep t a = t := by
  unfold uiStep
  rcases a with _ | act
  · rfl
  cases act with
  | clickInstall =>
      cases hst : t.st with
      | Confirmation => exact absurd hst h
      | Installing p m => rfl
      | Done m => rfl
      | Error m => rfl
  | clickCancel => rfl
  | clickClose => rfl

lemma uiStep_spawned_true (t : SysState) (a : Option UiAction)
    (h : t.spawned = true) : (uiStep t a).spawned = true := by
  by_cases hc : t.st = .Confirmation
  · rcases a with _ | act
    · rwa [uiStep_none]
    cases act with
    | clickInstall => rw [uiStep_install_conf t hc]
    | clickCancel => rwa [uiStep_cancel]
    | clickClose => rwa [uiStep_close]
  · rwa [uiStep_not_conf t a hc]

lemma initSeg_append_self {α : Type} {w d : List α}
    (h : initSeg (w ++ d) w) : d = [] := by
  obtain ⟨t, ht⟩ := h
  have hl := congrArg List.length ht
  simp only [List.length_append] at hl
  have : d.length = 0 := by omega
  exact List.eq_nil_of_length_eq_zero this

lemma singleton_eq_append {α : Type} {t : α} {c u : List α}
    (h : [t] = c ++ u) : (c = [] ∧ u = [t]) ∨ (c = [t] ∧ u = []) := by
  cases c with
  | nil => exact Or.inl ⟨rfl, h.symm⟩
  | cons x rest =>
      simp only [List.cons_append, List.cons.injEq] at h
      obtain ⟨rfl, h2⟩ := h
      rcases List.append_eq_nil.mp h2.symm with ⟨rfl, rfl⟩
      exact Or.inr ⟨rfl, rfl⟩

lemma terminal_mem_initSeg_eq {w v : List InstallStatus} {m : InstallStatus}
    (hW : SentShape w) (hseg : initSeg v w) (hm : m ∈ v)
    (ht : isTerminalMsg m = true) : v = w := by
  obtain ⟨pre, t, rfl, htt, hpre⟩ := hW
  obtain ⟨u, hu⟩ := hseg
  rcases List.append_eq_append_iff.mp hu with ⟨a, ha1, _⟩ | ⟨c, hc1, hc2⟩
  · exact absurd ht (by rw [hpre m (ha1 ▸ List.mem_append.mpr (Or.inl hm))]; decide)
  · rcases singleton_eq_append hc2 with ⟨rfl, _⟩ | ⟨rfl, rfl⟩
    · rw [List.append_nil] at hc1
      subst hc1
      exact absurd ht (by rw [hpre m hm]; decide)
    · rw [hc1]

lemma inv_init (w : List InstallStatus) : Inv w initSys := by
  refine ⟨by simp [initSys], fun _ => rfl, ⟨w, rfl⟩, fun h => ?_⟩
  exact absurd h (by decide)

lemma inv_step {w : List InstallStatus} (hW : SentShape w) {s s' : SysState}
    (hs : Inv w s) (hstep : Step w s s') : Inv w s' := by
  cases hstep with
  | tick d a hspawn hfifo =>
      cases hb : s.spawned with
      | false =>
          have hd0 : d = [] := hspawn hb
          subst hd0
          have hconf : s.st = .Confirmation := hs.1.mpr hb
          have hdel : s.delivered = [] := hs.2.1 hconf
          rw [hconf, hdel]
          show Inv w (uiStep ⟨.Confirmation, false, []⟩ a)
          rcases a with _ | act
          · show Inv w ⟨.Confirmation, false, []⟩
            exact ⟨by simp, fun _ => rfl, ⟨w, rfl⟩, fun h => nomatch h⟩
          cases act with
          | clickInstall =>
              show Inv w ⟨.Installing 0.0 "Starting installation...", true, []⟩
              exact ⟨by simp, by simp, ⟨w, rfl⟩, fun h => nomatch h⟩
          | clickCancel =>
              show Inv w ⟨.Confirmation, false, []⟩
              exact ⟨by simp, fun _ => rfl, ⟨w, rfl⟩, fun h => nomatch h⟩
          | clickClose =>
              show Inv w ⟨.Confirmation, false, []⟩
              exact ⟨by simp, fun _ => rfl, ⟨w, rfl⟩, fun h => nomatch h⟩
      | true =>
          have hne : s.st ≠ .Confirmation := by
            intro h
            have hsp := hs.1.mp h
            rw [hb] at hsp
            exact absurd hsp (by decide)
          rcases List.eq_nil_or_concat' d with rfl | ⟨l, mlast, rfl⟩
          · have hmid : (⟨drain s.st [], true, s.delivered ++ []⟩ : SysState) =
                ⟨s.st, true, s.delivered⟩ := by
              simp [drain]
            rw [hmid, uiStep_not_conf ⟨s.st, true, s.delivered⟩ a hne]
            exact ⟨⟨fun h => absurd h hne, fun h => nomatch h⟩,
              fun h => absurd h hne, hs.2.2.1, fun h => hs.2.2.2 h⟩
          · have hmid : (⟨drain s.st (l ++ [mlast]), true,
                s.delivered ++ (l ++ [mlast])⟩ : SysState) =
                ⟨msgState mlast, true, s.delivered ++ (l ++ [mlast])⟩ := by
              rw [drain_concat]
            rw [hmid, uiStep_not_conf
              ⟨msgState mlast, true, s.delivered ++ (l ++ [mlast])⟩ a
              (msgState_ne_confirmation mlast)]
            refine ⟨⟨fun h => absurd h (msgState_ne_confirmation mlast),
              fun h => nomatch h⟩,
              fun h => absurd h (msgState_ne_confirmation mlast), hfifo, ?_⟩
            intro hterm
            rw [isTerminalState_msgState] at hterm
            exact terminal_mem_initSeg_eq hW hfifo (by simp) hterm

lemma inv_reaches {w : List InstallStatus} (hW : SentShape w) {s : SysState}
    (h : Reaches w s) : Inv w s := by
  induction h with
  | init => exact inv_init w
  | step hr hst ih => exact inv_step hW ih hst

lemma step_confirmation {w : List InstallStatus} {s s' : SysState}
    (hs : Inv w s) (hstep : Step w s s') (hc : s.st = .Confirmation) :
    (s'.st = .Confirmation ∧ s'.spawned = false) ∨
    (s'.st = .Installing 0.0 "Starting installation..." ∧ s'.spawned = true) := by
  cases hstep with
  | tick d a hspawn hfifo =>
      have hb : s.spawned = false := hs.1.mp hc
      have hd0 : d = [] := hspawn hb
      subst hd0
      have hdel : s.delivered = [] := hs.2.1 hc
      rw [hc, hb, hdel]
      show ((uiStep ⟨.Confirmation, false, []⟩ a).st = .Confirmation ∧
          (uiStep ⟨.Confirmation, false, []⟩ a).spawned = false) ∨
        ((uiStep ⟨.Confirmation, false, []⟩ a).st =
            .Installing 0.0 "Starting installation..." ∧
          (uiStep ⟨.Confirmation, false, []⟩ a).spawned = true)
      rcases a with _ | act
      · exact Or.inl ⟨rfl, rfl⟩
      cases act with
      | clickInstall => exact Or.inr ⟨rfl, rfl⟩
      | clickCancel => exact Or.inl ⟨rfl, rfl⟩
      | clickClose => exact Or.inl ⟨rfl, rfl⟩

lemma step_spawn_mono {w : List InstallStatus} {s s' : SysState}
    (hstep : Step w s s') (hb : s.spawned = true) : s'.spawned = true := by
  cases hstep with
  | tick d a hspawn hfifo => exact uiStep_spawned_true _ a hb

lemma step_terminal {w : List InstallStatus}
    {s s' : SysState} (hs : Inv w s) (hstep : Step w s s')
    (ht : isTerminalState s.st = true) : s'.st = s.st := by
  cases hstep with
  | tick d a hspawn hfifo =>
      have hdel : s.delivered = w := hs.2.2.2 ht
      have hd0 : d = [] := by
        apply initSeg_append_self
        rwa [hdel] at hfifo
      subst hd0
      have hne : s.st ≠ .Confirmation := by
        intro h
        rw [h] at ht
        exact absurd ht (by decide)
      rw [uiStep_not_conf ⟨drain s.st [], s.spawned, s.delivered ++ []⟩ a hne]
      rfl

end Coordinator

/-- C8: over every run of the coordinator against a sequence the worker can
actually produce, the state starts at `Confirmation`; in every reachable
state, being in `Confirmation` coincides with the worker being unspawned (so
`Confirmation` is never re-entered and at most one worker is spawned); a step
out of `Confirmation` goes only to `Installing` (spawning the worker); the
spawned flag never resets; and the terminal `Done`/`Error` states are
preserved by every further producible tick. -/
theorem coordinator_state_machine_safe (env : Env) (it : InstallType)
    (s s' : SysState)
    (hr : Reaches (workerRun env it).sent s)
    (hstep : Step (workerRun env it).sent s s') :
    initSys.st = .Confirmation ∧
    (s.st = .Confirmation ↔ s.spawned = false) ∧
    (s.st = .Confirmation →
      (s'.st = .Confirmation ∧ s'.spawned = false) ∨
      (s'.st = .Installing 0.0 "Starting installation..." ∧ s'.spawned = true)) ∧
    (s.spawned = true → s'.spawned = true) ∧
    (∀ msg, s.st = .Done msg → s'.st = .Done msg) ∧
    (∀ msg, s.st = .Error msg → s'.st = .Error msg) := by
  have hW := sentShape_workerRun env it
  have hinv := inv_reaches hW hr
  refine ⟨rfl, hinv.1, fun hc => step_confirmation hinv hstep hc,
    step_spawn_mono hstep, ?_, ?_⟩
  · intro msg hd
    have h := step_terminal hinv hstep (by rw [hd]; rfl)
    rw [h, hd]
  · intro msg he
    have h := step_terminal hinv hstep (by rw [he]; rfl)
    rw [h, he]

/-- Witness for C8: the initial state with an empty first tick. -/
theorem coordinator_state_machine_safe_witness :
    initSys.st = .Confirmation ∧
    (initSys.st = .Confirmation ↔ initSys.spawned = false) ∧
    (initSys.st = .Confirmation →
      ((uiStep ⟨drain initSys.st [], initSys.spawned, initSys.delivered ++ []⟩
          none).st = .Confirmation ∧
       (uiStep ⟨drain initSys.st [], initSys.spawned, initSys.delivered ++ []⟩
          none).spawned = false) ∨
      ((uiStep ⟨drain initSys.st [], initSys.spawned, initSys.delivered ++ []⟩
          none).st = .Installing 0.0 "Starting installation..." ∧
       (uiStep ⟨drain initSys.st [], initSys.spawned, initSys.delivered ++ []⟩
          none).spawned = true)) ∧
    (initSys.spawned = true →
      (uiStep ⟨drain initSys.st [], initSys.spawned, initSys.delivered ++ []⟩
        none).spawned = true) ∧
    (∀ msg, initSys.st = .Done msg →
      (uiStep ⟨drain initSys.st [], initSys.spawned, initSys.delivered ++ []⟩
        none).st = .Done msg) ∧
    (∀ msg, initSys.st = .Error msg →
      (uiStep ⟨drain initSys.st [], initSys.spawned, initSys.delivered ++ []⟩
        none).st = .Error msg) :=
  coordinator_state_machine_safe envOK .SelfInstall initSys _ Reaches.init
    (Step.tick initSys [] none (fun _ => rfl)
      ⟨(workerRun envOK .SelfInstall).sent, rfl⟩)

/-- C9: the coordinator's message application is oblivious to the current
state — each message maps any state to the state determined by the message
alone — and in particular a `Progress` drained after reaching `Done` would
move the coordinator out of the terminal state; the terminal states are
absorbing only because the worker never emits such a sequence. -/
theorem apply_status_state_oblivious :
    (∀ s p msg, applyStatus s (.Progress p msg) = .Installing p msg) ∧
    (∀ s msg, applyStatus s (.Success msg) = .Done msg) ∧
    (∀ s msg, applyStatus s (.Error msg) = .Error msg) ∧
    drain (.Done "installed") [InstallStatus.Progress 0.5 "more"] =
      .Installing 0.5 "more" ∧
    isTerminalState (.Done "installed") = true ∧
    isTerminalState
      (drain (.Done "installed") [InstallStatus.Progress 0.5 "more"]) = false :=
  ⟨fun _ _ _ => rfl, fun _ _ => rfl, fun _ _ => rfl, rfl, rfl, rfl⟩

/-- C10: the manifest file write is attempted only after a successful parse —
a parse failure means no write call at all — and a failure of the
`ensure_dirs` call preceding the write, or of the write itself, means
`install_app_from_manifest` is never invoked and the attempt ends in a
terminal `Error`. -/
theorem app_write_gated (env : Env) (name dn mc : String) :
    ((∃ e, env.parseManifest mc = .error e) →
      ∀ p c, Call.fsWrite p c ∉ (workerRun env (.AppInstall name dn mc)).calls) ∧
    (((∃ e, env.fsWrite (env.manifestPath name) mc = .error e) ∨
      (∃ e, env.ensureDirs (if env.installPathExists then 0 else 1) = .error e)) →
      (∀ m f, Call.installApp m f ∉
        (workerRun env (.AppInstall name dn mc)).calls) ∧
      ∃ ms e, (workerRun env (.AppInstall name dn mc)).sent =
        ms ++ [InstallStatus.Error e]) := by
  constructor
  · rintro ⟨e, hp⟩ p c hmem
    rw [workerRun_calls] at hmem
    cases hex : env.installPathExists with
    | true =>
        rw [perform_app_runtime_present hex, appFromParse_err hp] at hmem
        simp at hmem
    | false =>
        rw [perform_app_runtime_absent hex] at hmem
        cases h1 : env.ensureDirs 0 with
        | error e1 => rw [appBootstrap_err h1] at hmem; simp at hmem
        | ok u =>
            rw [appBootstrap_ok h1] at hmem
            cases h2 : env.installSelf with
            | error e2 => rw [appBootstrapSelf_err h2] at hmem; simp at hmem
            | ok u2 =>
                rw [appBootstrapSelf_ok h2, appFromParse_err hp] at hmem
                simp at hmem
  · intro hor
    cases hex : env.installPathExists with
    | true =>
        rw [hex] at hor
        simp only [if_true] at hor
        rw [workerRun_calls, workerRun_sent, perform_app_runtime_present hex]
        cases hp : env.parseManifest mc with
        | error e =>
            rw [appFromParse_err hp]
            exact ⟨by intro m f hmem; simp at hmem, _, e, rfl⟩
        | ok man =>
            rw [appFromParse_ok hp]
            cases hd : env.ensureDirs 0 with
            | error e =>
                rw [appDirs_err hd]
                exact ⟨by intro m f hmem; simp at hmem, _, e, rfl⟩
            | ok u =>
                cases hw : env.fsWrite (env.manifestPath name) mc with
                | error e =>
                    rw [appDirs_ok hd, appWrite_err hw]
                    exact ⟨by intro m f hmem; simp at hmem, _, e, rfl⟩
                | ok u2 =>
                    rcases hor with ⟨e, he⟩ | ⟨e, he⟩
                    · rw [he] at hw; cases hw
                    · rw [he] at hd; cases hd
    | false =>
        rw [hex] at hor
        simp only [Bool.false_eq_true, if_false] at hor
        rw [workerRun_calls, workerRun_sent, perform_app_runtime_absent hex]
        cases h1 : env.ensureDirs 0 with
        | error e1 =>
            rw [appBootstrap_err h1]
            exact ⟨by intro m f hmem; simp at hmem, _, e1, rfl⟩
        | ok u =>
            rw [appBootstrap_ok h1]
            cases h2 : env.installSelf with
            | error e2 =>
                rw [appBootstrapSelf_err h2]
                exact ⟨by intro m f hmem; simp at hmem, _, e2, rfl⟩
            | ok u2 =>
                rw [appBootstrapSelf_ok h2]
                cases hp : env.parseManifest mc with
                | error e =>
                    rw [appFromParse_err hp]
                    exact ⟨by intro m f hmem; simp at hmem, _, e, rfl⟩
                | ok man =>
                    rw [appFromParse_ok hp]
                    cases hd : env.ensureDirs 1 with
                    | error e =>
                        rw [appDirs_err hd]
                        exact ⟨by intro m f hmem; simp at hmem, _, e, rfl⟩
                    | ok u3 =>
                        cases hw : env.fsWrite (env.manifestPath name) mc with
                        | error e =>
                            rw [appDirs_ok hd, appWrite_err hw]
                            exact ⟨by intro m f hmem; simp at hmem, _, e, rfl⟩
                        | ok u4 =>
                            rcases hor with ⟨e, he⟩ | ⟨e, he⟩
                            · rw [he] at hw; cases hw
                            · rw [he] at hd; cases hd

/-- Witness for C10: a failing parse yields no write call, and a failing
write yields no install call and a terminal `Error`. -/
theorem app_write_gated_witness :
    (∀ p c, Call.fsWrite p c ∉
      (workerRun envParseFail (.AppInstall "slot" "Slot" "bad")).calls) ∧
    ((∀ m f, Call.installApp m f ∉
        (workerRun envWriteFail (.AppInstall "slot" "Slot" "text")).calls) ∧
      ∃ ms e, (workerRun envWriteFail (.AppInstall "slot" "Slot" "text")).sent =
        ms ++ [InstallStatus.Error e]) :=
  ⟨(app_write_gated envParseFail "slot" "Slot" "bad").1 ⟨"invalid manifest", rfl⟩,
   (app_write_gated envWriteFail "slot" "Slot" "text").2
     (Or.inl ⟨"permission denied", rfl⟩)⟩

/-- Witness for C7 at the all-success environment. -/
theorem success_messages_identify_witness :
    (∃ pre, (workerRun envOK .SelfInstall).sent =
        pre ++ [InstallStatus.Success (selfSuccessMessage envOK)] ∧
        ∃ a b, selfSuccessMessage envOK = a ++ envOK.version ++ b) ∧
    (∃ pre, (workerRun envOK (.AppInstall "app" "App" "text")).sent =
        pre ++ [InstallStatus.Success ("App" ++ " has been installed successfully!")] ∧
        ∃ a b, "App" ++ " has been installed successfully!" = a ++ "App" ++ b) :=
  ⟨(success_messages_identify envOK "app" "App" "text" ⟨"text"⟩).1 rfl rfl,
   (success_messages_identify envOK "app" "App" "text" ⟨"text"⟩).2 rfl
     (fun h => nomatch h) rfl rfl rfl⟩

end Voidbox
